import Mathlib

/-!
Shallow embedding of the Path Extraction & Field-Mapping Transformation
Engine of the integration front end: the two `getDataFromPath` resolver
variants, `extractMappingOptions` (option discovery), the mapping-state
reconciliation performed inside `processRemoteData` (the validator), the
two `generatePreviewForProduct` transform variants, and the
AI-suggestion merge of `handleAiMapClick`.

JavaScript runtime values reachable by this code are modelled by `Json`,
with a distinct `undefined` constructor (JS `undefined`, as produced by a
missing-property read) separate from `null`.  Object fields are kept in
insertion order, as JS objects do.  Arrays and field lists are dedicated
mutual inductives (`JsonList`, `JsonFields`) so that equality stays
decidable.
-/

mutual

/-- A JavaScript value as handled by the engine. -/
inductive Json where
  | undefined : Json
  | null : Json
  | bool (b : Bool) : Json
  | num (q : Rat) : Json
  | str (s : String) : Json
  | arr (elems : JsonList) : Json
  | obj (fields : JsonFields) : Json
  deriving DecidableEq, Repr

/-- The elements of a JS array. -/
inductive JsonList where
  | nil : JsonList
  | cons (hd : Json) (tl : JsonList) : JsonList
  deriving DecidableEq, Repr

/-- The fields of a JS object, in insertion order. -/
inductive JsonFields where
  | nil : JsonFields
  | cons (k : String) (v : Json) (tl : JsonFields) : JsonFields
  deriving DecidableEq, Repr

end

namespace JsonList

/-- Number of elements (JS `array.length`). -/
def length : JsonList → Nat
  | .nil => 0
  | .cons _ tl => 1 + tl.length

/-- Element at a non-negative index. -/
def get? : JsonList → Nat → Option Json
  | .nil, _ => none
  | .cons hd _, 0 => some hd
  | .cons _ tl, n + 1 => tl.get? n

/-- JS `array.map(f)`. -/
def map (f : Json → Json) : JsonList → JsonList
  | .nil => .nil
  | .cons hd tl => .cons (f hd) (tl.map f)

/-- Build from a Lean list. -/
def ofList : List Json → JsonList
  | [] => .nil
  | x :: xs => .cons x (ofList xs)

/-- Convert to a Lean list. -/
def toList : JsonList → List Json
  | .nil => []
  | .cons hd tl => hd :: tl.toList

end JsonList

namespace JsonFields

/-- First binding of a key, if any (JS objects never hold duplicates). -/
def lookup : JsonFields → String → Option Json
  | .nil, _ => none
  | .cons k v tl, key => if k = key then some v else tl.lookup key

/-- Whether a key is present (JS `Object.prototype.hasOwnProperty`). -/
def hasKey : JsonFields → String → Bool
  | .nil, _ => false
  | .cons k _ tl, key => k = key || tl.hasKey key

/-- JS property write `o[key] = v`: overwrite in place when the key
exists, append otherwise. -/
def set (fs : JsonFields) (key : String) (v : Json) : JsonFields :=
  match fs with
  | .nil => .cons key v .nil
  | .cons k w tl => if k = key then .cons k v tl else .cons k w (tl.set key v)

/-- JS `delete o[key]`. -/
def del : JsonFields → String → JsonFields
  | .nil, _ => .nil
  | .cons k v tl, key => if k = key then tl.del key else .cons k v (tl.del key)

/-- JS `Object.keys(o).length === 0`. -/
def isEmpty : JsonFields → Bool
  | .nil => true
  | .cons _ _ _ => false

/-- JS `Object.keys(o)`, in insertion order. -/
def keys : JsonFields → List String
  | .nil => []
  | .cons k _ tl => k :: tl.keys

/-- Build from a Lean association list. -/
def ofList : List (String × Json) → JsonFields
  | [] => .nil
  | (k, v) :: rest => .cons k v (ofList rest)

end JsonFields

namespace Json

/-- Readable constructor for array literals. -/
def arrL (xs : List Json) : Json := .arr (JsonList.ofList xs)

/-- Readable constructor for object literals. -/
def objL (fs : List (String × Json)) : Json := .obj (JsonFields.ofList fs)

/-- JS truthiness (`!!v`).  `undefined`, `null`, `false`, `0` and `""`
are falsy; every array and object is truthy.  (NaN does not occur in the
engine's data.) -/
def truthy : Json → Bool
  | .undefined => false
  | .null => false
  | .bool b => b
  | .num q => q != 0
  | .str s => s != ""
  | .arr _ => true
  | .obj _ => true

/-- JS `v === null || v === undefined`. -/
def isNullish : Json → Bool
  | .undefined => true
  | .null => true
  | _ => false

/-- JS `typeof v === 'object'` (true for objects, arrays and `null`). -/
def typeofObject : Json → Bool
  | .obj _ => true
  | .arr _ => true
  | .null => true
  | _ => false

/-- JS `Array.isArray(v)`. -/
def isArray : Json → Bool
  | .arr _ => true
  | _ => false

end Json

/-! Character-level string helpers.  The corresponding core `String`
functions (`splitOn`, `toNat?`, …) are defined by well-founded recursion
over byte positions and do not reduce inside the kernel, so the JS
string operations are re-expressed structurally over `List Char`;
each models the JS operation named in its doc comment. -/

/-- JS `s.split(c)` for a one-character separator. -/
def splitOnCharList (c : Char) : List Char → List (List Char)
  | [] => [[]]
  | x :: xs =>
    let rest := splitOnCharList c xs
    if x = c then [] :: rest
    else
      match rest with
      | [] => [[x]]
      | r :: rs => (x :: r) :: rs

/-- JS `s.split(c)` for a one-character separator, on strings. -/
def splitOnChar (c : Char) (s : String) : List String :=
  (splitOnCharList c s.toList).map (fun cs => String.mk cs)

/-- JS `s.includes(c)` for a one-character needle. -/
def containsChar (c : Char) (s : String) : Bool :=
  s.toList.any (fun x => x = c)

/-- JS `s.replace(c, '')` for a one-character pattern: removes the first
occurrence only. -/
def removeFirstChar (c : Char) : List Char → List Char
  | [] => []
  | x :: xs => if x = c then xs else x :: removeFirstChar c xs

/-- A canonical numeric array index, as used by JS array property reads. -/
def strToNatJS (s : String) : Option Nat :=
  let cs := s.toList
  if cs ≠ [] ∧ cs.all (fun c => c.isDigit) then
    some (cs.foldl (fun acc c => acc * 10 + (c.toNat - '0'.toNat)) 0)
  else none

/-- JS property read `v[key]`: object field lookup, numeric indexing on
arrays, and `undefined` otherwise (property reads on primitives yield
`undefined` for every key this engine uses). -/
def jsGet : Json → String → Json
  | .obj fields, k =>
    match fields.lookup k with
    | some v => v
    | none => .undefined
  | .arr xs, k =>
    match strToNatJS k with
    | some n => (xs.get? n).getD .undefined
    | none => .undefined
  | _, _ => .undefined

/-- Optional chaining `item?.[key]`: `undefined` when the receiver is
nullish, a plain property read otherwise. -/
def jsGetOpt (item : Json) (k : String) : Json :=
  if item.isNullish then .undefined else jsGet item k

/-! ## PathResolver: the two `getDataFromPath` variants

Both variants share `path.split('.')`, the bracket-index parsing
(`const [arrayName, indexStr] = part.split('['); parseInt(...)`), the
nullish short-circuit at the top of the loop and plain object-property
steps.  They differ in how an array met at a non-indexed segment is
handled, and in whether a terminal array is unwrapped. -/

/-- JS `part.includes('[') && part.includes(']')`. -/
def partHasBracket (part : String) : Bool :=
  containsChar '[' part && containsChar ']' part

/-- JS `const [arrayName, indexStr] = part.split('[')`. -/
def bracketParts (part : String) : String × String :=
  match splitOnChar '[' part with
  | [] => ("", "")
  | [a] => (a, "")
  | a :: b :: _ => (a, b)

/-- JS `s.replace(']', '')`: remove the first occurrence only. -/
def removeFirstBracket (s : String) : String :=
  String.mk (removeFirstChar ']' s.toList)

/-- JS `parseInt(s, 10)`: skip leading whitespace, optional sign,
leading decimal digits; `none` models NaN. -/
def parseIntJS (s : String) : Option Int :=
  let t := s.toList.dropWhile (fun c => c.isWhitespace)
  let signAndRest : Int × List Char :=
    match t with
    | '-' :: rest => (-1, rest)
    | '+' :: rest => (1, rest)
    | _ => (1, t)
  let digits := signAndRest.2.takeWhile (fun c => c.isDigit)
  if digits.isEmpty then none
  else some (signAndRest.1 * (digits.foldl (fun acc c => acc * 10 + (c.toNat - '0'.toNat)) 0 : Nat))

/-- JS `array[i]` for an `Int` index that passed `array.length > i`:
the element for `0 ≤ i < length`, `undefined` for a negative index. -/
def jsonIndex (xs : JsonList) (i : Int) : Json :=
  if i < 0 then .undefined else (xs.get? i.toNat).getD .undefined

/-- JS `array.length > 0 ? array[0] : null`. -/
def firstOrNull : JsonList → Json
  | .nil => .null
  | .cons hd _ => hd

/-- JS `result.length > 0 ? result[0] : null` applied to an array value
(identity on anything else). -/
def unwrapOnce : Json → Json
  | .arr xs => firstOrNull xs
  | r => r

/-- JS `result.map(item => item?.[part])` applied to an array value
(identity on anything else). -/
def broadcastSegment (r : Json) (part : String) : Json :=
  match r with
  | .arr xs => .arr (xs.map (fun item => jsGetOpt item part))
  | _ => r

/-- The shared indexed-segment step
(`const [arrayName, indexStr] = part.split('['); ...`): resolve the
named field, require an array with `length > index`, and hand back the
indexed element; `none` models the loop's early `return null`. -/
def bracketStep (part : String) (r : Json) : Option Json :=
  match jsGet r (bracketParts part).1,
        parseIntJS (removeFirstBracket (bracketParts part).2) with
  | .arr xs, some i => if (xs.length : Int) > i then some (jsonIndex xs i) else none
  | _, _ => none

/-- Loop body of the first (auto-unwrapping) variant of
`getDataFromPath`: an array met at a non-indexed segment is replaced by
its first element (`null` when empty) and the current segment is then
read off that element with `?.`. -/
def runPathUnwrap : List String → Json → Json
  | [], r => r
  | part :: rest, r =>
    if r.isNullish then .null
    else if partHasBracket part then
      match bracketStep part r with
      | some next => runPathUnwrap rest next
      | none => .null
    else if r.isArray then runPathUnwrap rest (jsGetOpt (unwrapOnce r) part)
    else runPathUnwrap rest (jsGet r part)

/-- JS `Array.isArray(result) ? (result.length > 0 ? result[0] : null) : result`,
the terminal unwrap of the first variant. -/
def unwrapTerminalArray : Json → Json
  | .arr xs => firstOrNull xs
  | r => r

/-- First `getDataFromPath` variant (auto-unwrap): arrays met during
traversal are collapsed to their first element, and a terminal array is
collapsed as well. -/
def getDataFromPathUnwrap (obj : Json) (path : String) : Json :=
  if path = "" then obj
  else unwrapTerminalArray (runPathUnwrap (splitOnChar '.' path) obj)

/-- Loop body of the second (array-preserving) variant of
`getDataFromPath`: when an array is met at a non-indexed segment that is
not the last one, the segment is mapped across the elements
(`result.map(item => item?.[part])`) and the following segment is then
skipped (`i++`); when that segment is the last one the array is kept
intact and the segment is not applied. -/
def runPathPreserve : List String → Json → Json
  | [], r => r
  | [part], r =>
    if r.isNullish then .null
    else if partHasBracket part then
      match bracketStep part r with
      | some next => runPathPreserve [] next
      | none => .null
    else if r.isArray then r
    else runPathPreserve [] (jsGet r part)
  | part :: next :: rest2, r =>
    if r.isNullish then .null
    else if partHasBracket part then
      match bracketStep part r with
      | some nxt => runPathPreserve (next :: rest2) nxt
      | none => .null
    else if r.isArray then runPathPreserve rest2 (broadcastSegment r part)
    else runPathPreserve (next :: rest2) (jsGet r part)

/-- Second `getDataFromPath` variant (preserve): arrays are kept intact;
a terminal array is returned as is. -/
def getDataFromPathPreserve (obj : Json) (path : String) : Json :=
  if path = "" then obj
  else runPathPreserve (splitOnChar '.' path) obj


/-! ## OptionDiscovery: `extractMappingOptions` -/

/-- One discoverable source key (`{label, value}` with `label == value`). -/
structure FieldOption where
  label : String
  value : String
  deriving DecidableEq, Repr

/-- JS `Object.keys(v)`, in insertion order (index strings for arrays). -/
def jsOwnKeys : Json → List String
  | .obj fs => fs.keys
  | .arr xs => (List.range xs.length).map (fun n => toString n)
  | _ => []

/-- `extractMappingOptions`: one option per own key of a truthy
`typeof === 'object'` value, empty list otherwise. -/
def extractMappingOptions (obj : Json) : List FieldOption :=
  if ¬ (obj.truthy ∧ obj.typeofObject) then []
  else (jsOwnKeys obj).map (fun key => { label := key, value := key })

/-! ## MappingSpec -/

/-- One metafield mapping row, as kept in wizard state.  The JS rows
also carry an `id` (never read by the mapping logic, so omitted); a
field that is absent on a row is modelled as `""`, since every check the
code performs on these fields is a truthiness test, which identifies
`undefined` and `""`. -/
structure MetafieldMapping where
  mappingType : String
  sourceKey : String
  metafieldNamespace : String
  metafieldKey : String
  metafieldType : String
  arrayKeySource : String
  arrayValueSource : String
  deriving DecidableEq, Repr

/-- The wizard's mapping state: `titleKey`, the sparse
`optionalFieldKeys` object (insertion-ordered association list), the
`activeOptionalFields` array and the `metafieldMappings` array. -/
structure MappingSpec where
  titleKey : String
  optionalFieldKeys : List (String × String)
  activeOptionalFields : List String
  metafieldMappings : List MetafieldMapping
  deriving DecidableEq, Repr

/-- JS `optionalFieldKeys[field]`, with the `undefined` of a missing
entry collapsed to `""` (the code only ever tests these values for
truthiness or membership in the valid keys). -/
def lookupKey : List (String × String) → String → String
  | [], _ => ""
  | fk :: tl, f => if fk.1 = f then fk.2 else lookupKey tl f

/-! ## MappingValidator: the mapping-state reconciliation inside
`processRemoteData` -/

/-- `checkAndSetKey`: reset the key when it is set but no longer among
the valid option values, keep it otherwise. -/
def checkAndSetKey (currentKey : String) (validOptionValues : List String) : String :=
  if currentKey ≠ "" ∧ currentKey ∉ validOptionValues then "" else currentKey

/-- `autoSelectKey`: auto-select the first option when the current key
is empty and options exist, else fall through to `checkAndSetKey`. -/
def autoSelectKey (currentKey : String) (options : List FieldOption)
    (validOptionValues : List String) : String :=
  if currentKey = "" ∧ 0 < options.length then
    match options with
    | [] => currentKey
    | o :: _ => o.value
  else checkAndSetKey currentKey validOptionValues

/-- The pure content of `processRemoteData`'s mapping-state updates once
options have been discovered: with a non-empty option list, `titleKey`
goes through `autoSelectKey`, each `optionalFieldKeys` entry is reset to
`""` when stale, `activeOptionalFields` keeps only the fields whose
(pre-reset) mapped key is truthy and still valid, and each metafield
row's stale `sourceKey` is cleared; with an empty option list the whole
spec is cleared. -/
def validateMappingSpec (spec : MappingSpec) (options : List FieldOption) : MappingSpec :=
  let validOptionValues := options.map (fun o => o.value)
  if 0 < options.length then
    { titleKey := autoSelectKey spec.titleKey options validOptionValues
      optionalFieldKeys := spec.optionalFieldKeys.map (fun fk =>
        if fk.2 ≠ "" ∧ fk.2 ∉ validOptionValues then (fk.1, "") else fk)
      activeOptionalFields := spec.activeOptionalFields.filter (fun field =>
        lookupKey spec.optionalFieldKeys field != "" &&
          validOptionValues.contains (lookupKey spec.optionalFieldKeys field))
      metafieldMappings := spec.metafieldMappings.map (fun m =>
        if m.sourceKey ≠ "" ∧ m.sourceKey ∉ validOptionValues then
          { m with sourceKey := "" }
        else m) }
  else
    { titleKey := "", optionalFieldKeys := [], activeOptionalFields := [],
      metafieldMappings := [] }

/-! ## TransformEngine: the wizard's `generatePreviewForProduct` -/

/-- The wizard's `FIELD_PLACEMENT_MAP`, keyed by field-constant name. -/
def FIELD_PLACEMENT_MAP (fieldConstant : String) : Option (String × String) :=
  match fieldConstant with
  | "FIELD_TITLE" => some ("root", "title")
  | "FIELD_DESCRIPTION_HTML" => some ("root", "bodyHtml")
  | "FIELD_VENDOR" => some ("root", "vendor")
  | "FIELD_PRODUCT_TYPE" => some ("root", "productType")
  | "FIELD_TAGS" => some ("root", "tags")
  | "FIELD_STATUS" => some ("root", "status")
  | "FIELD_HANDLE" => some ("root", "handle")
  | "FIELD_PUBLISHED_AT" => some ("root", "publishedAt")
  | "FIELD_REQUIRES_SELLING_PLAN" => some ("root", "requiresSellingPlan")
  | "FIELD_TEMPLATE_SUFFIX" => some ("root", "templateSuffix")
  | "FIELD_SEO_TITLE" => some ("seo", "title")
  | "FIELD_SEO_DESCRIPTION" => some ("seo", "description")
  | "FIELD_SKU" => some ("inventoryItem", "sku")
  | "FIELD_BARCODE" => some ("inventoryItem", "barcode")
  | "FIELD_PRICE" => some ("inventoryItem", "price")
  | "FIELD_COMPARE_AT_PRICE" => some ("inventoryItem", "compareAtPrice")
  | "FIELD_WEIGHT" => some ("inventoryItem", "weight")
  | "FIELD_WEIGHT_UNIT" => some ("inventoryItem", "weightUnit")
  | "FIELD_INVENTORY_POLICY" => some ("inventoryItem", "inventoryPolicy")
  | "FIELD_INVENTORY_QUANTITY" => some ("inventoryItem", "inventoryQuantity")
  | "FIELD_INVENTORY_MANAGEMENT" => some ("inventoryItem", "inventoryManagement")
  | "FIELD_TAXABLE" => some ("inventoryItem", "taxable")
  | "FIELD_TAX_CODE" => some ("inventoryItem", "taxCode")
  | "FIELD_HARMONIZED_SYSTEM_CODE" => some ("inventoryItem", "harmonizedSystemCode")
  | "FIELD_REQUIRES_SHIPPING" => some ("inventoryItem", "requiresShipping")
  | "FIELD_COST" => some ("inventoryItem", "cost")
  | _ => none

/-- `previewData[placement.target][placement.key] = value`, preceded by
`if (!previewData[target]) previewData[target] = {}`.  (A property write
on a truthy primitive is a silent no-op in sloppy-mode JS; that corner
is unreachable here because the nested groups are initialised to
objects.) -/
def setNestedField (pd : JsonFields) (target key : String) (v : Json) : JsonFields :=
  match (pd.lookup target).getD .undefined with
  | .obj fs => pd.set target (.obj (fs.set key v))
  | cur => if cur.truthy then pd else pd.set target (.obj (JsonFields.nil.set key v))

/-- One emitted metafield object, with JS literal field order. -/
def metafieldObj (ns : String) (key : Json) (ty : String) (value : Json) : Json :=
  .obj (.cons "namespace" (.str ns)
       (.cons "key" key
       (.cons "type" (.str ty)
       (.cons "value" value .nil))))

/-- The `sourceValue.forEach` body of a `dynamic_from_array` row: each
element that is a truthy object with a truthy `arrayKeySource` value and
a defined `arrayValueSource` value contributes one metafield. -/
def emitDynamicMetafields (m : MetafieldMapping) : JsonList → List Json
  | .nil => []
  | .cons item tl =>
    (if item.truthy ∧ item.typeofObject ∧ (jsGet item m.arrayKeySource).truthy ∧
        jsGet item m.arrayValueSource ≠ .undefined then
      [metafieldObj m.metafieldNamespace (jsGet item m.arrayKeySource)
        m.metafieldType (jsGet item m.arrayValueSource)]
    else []) ++ emitDynamicMetafields m tl

/-- The metafields contributed by one mapping row: the row is skipped
outright when `sourceKey` is falsy or `sourceProduct[sourceKey]` is
falsy (a truthiness test, not an `undefined` test); a `single` row with
truthy namespace/key/type emits one metafield; a `dynamic_from_array`
row whose source value is an array and whose namespace/arrayKeySource/
arrayValueSource/type are all truthy emits per-element metafields. -/
def emitMetafieldsForMapping (sourceProduct : Json) (m : MetafieldMapping) : List Json :=
  if m.sourceKey = "" ∨ ¬ (jsGet sourceProduct m.sourceKey).truthy then []
  else if m.mappingType = "single" then
    if m.metafieldNamespace ≠ "" ∧ m.metafieldKey ≠ "" ∧ m.metafieldType ≠ "" then
      [metafieldObj m.metafieldNamespace (.str m.metafieldKey) m.metafieldType
        (jsGet sourceProduct m.sourceKey)]
    else []
  else if m.mappingType = "dynamic_from_array" then
    match jsGet sourceProduct m.sourceKey with
    | .arr xs =>
      if m.metafieldNamespace ≠ "" ∧ m.arrayKeySource ≠ "" ∧ m.arrayValueSource ≠ "" ∧
          m.metafieldType ≠ "" then
        emitDynamicMetafields m xs
      else []
    | _ => []
  else []

/-- The initial `previewData = { seo: {}, inventoryItem: {} }`. -/
def previewBase : JsonFields :=
  .cons "seo" (.obj .nil) (.cons "inventoryItem" (.obj .nil) .nil)

/-- Step 1 of the wizard transform: place the title, or record
`previewData.title = undefined` when unmapped. -/
def applyTitle (sourceProduct : Json) (spec : MappingSpec) (pd : JsonFields) : JsonFields :=
  if spec.titleKey ≠ "" ∧ jsGet sourceProduct spec.titleKey ≠ .undefined then
    match FIELD_PLACEMENT_MAP "FIELD_TITLE" with
    | some p => if p.1 = "root" then pd.set p.2 (jsGet sourceProduct spec.titleKey) else pd
    | none => pd
  else pd.set "title" .undefined

/-- Step 2 of the wizard transform, one `activeOptionalFields.forEach`
iteration: place the mapped value per `FIELD_PLACEMENT_MAP` when the
field is mapped and the source value is defined. -/
def applyOptionalField (sourceProduct : Json) (spec : MappingSpec)
    (pd : JsonFields) (fieldConstant : String) : JsonFields :=
  if lookupKey spec.optionalFieldKeys fieldConstant ≠ "" ∧
      jsGet sourceProduct (lookupKey spec.optionalFieldKeys fieldConstant) ≠ .undefined then
    match FIELD_PLACEMENT_MAP fieldConstant with
    | some p =>
      if p.1 = "root" then
        pd.set p.2 (jsGet sourceProduct (lookupKey spec.optionalFieldKeys fieldConstant))
      else
        setNestedField pd p.1 p.2
          (jsGet sourceProduct (lookupKey spec.optionalFieldKeys fieldConstant))
    | none => pd
  else pd

/-- Second half of the empty-group cleanup: drop `inventoryItem` when
empty. -/
def applyCleanupInv (pd : JsonFields) : JsonFields :=
  if pd.lookup "inventoryItem" = some (.obj .nil) then pd.del "inventoryItem" else pd

/-- The empty-group cleanup: drop `seo`/`inventoryItem` when empty. -/
def applyCleanup (pd : JsonFields) : JsonFields :=
  applyCleanupInv (if pd.lookup "seo" = some (.obj .nil) then pd.del "seo" else pd)

/-- Attach a computed metafield list when non-empty. -/
def attachMetafields (pd : JsonFields) (previewMetafields : List Json) : JsonFields :=
  if previewMetafields ≠ [] then pd.set "metafields" (.arr (JsonList.ofList previewMetafields))
  else pd

/-- Step 3 of the wizard transform: attach the `metafields` array when
non-empty. -/
def applyMetafields (sourceProduct : Json) (mappings : List MetafieldMapping)
    (pd : JsonFields) : JsonFields :=
  attachMetafields pd
    ((mappings.map (fun m => emitMetafieldsForMapping sourceProduct m)).flatten)

/-- The wizard's `generatePreviewForProduct(sourceProduct)`, closing
over the mapping state (here passed explicitly as a `MappingSpec`):
guard against non-object records, then title placement, optional-field
placement, empty-group cleanup and the metafield pass. -/
def generatePreviewForProduct (sourceProduct : Json) (spec : MappingSpec) : Json :=
  if ¬ (sourceProduct.truthy ∧ sourceProduct.typeofObject) then
    .objL [("error", .str "Invalid source product data for preview.")]
  else
    .obj (applyMetafields sourceProduct spec.metafieldMappings
      (applyCleanup
        (spec.activeOptionalFields.foldl (applyOptionalField sourceProduct spec)
          (applyTitle sourceProduct spec previewBase))))

/-- The `metafields` list of a transform output (empty when absent). -/
def outputMetafields (output : Json) : List Json :=
  match jsGet output "metafields" with
  | .arr ms => ms.toList
  | _ => []


/-! ## The detail page's `generatePreviewForProduct` variant

`IntegrationDetail` carries its own copy of the transform,
`generatePreviewForProduct(sourceProduct, mapping, metafieldMappings)`.
Its placement map is keyed both by plain standard-field names and by
field-constant names, and it runs an extra first pass that auto-copies
every recognised source key before applying `mapping`. -/

/-- A value of the detail page's persisted `mapping` object: either a
source-key string or a nested `seo`/`inventoryItem` group of source-key
strings. -/
inductive MappingVal where
  | key (s : String) : MappingVal
  | nested (entries : List (String × String)) : MappingVal
  deriving DecidableEq, Repr

/-- The detail page's `FIELD_PLACEMENT_MAP` (no seo entries, no cost
entry; plain keys and `FIELD_*` constants both present). -/
def DETAIL_FIELD_PLACEMENT_MAP (key : String) : Option (String × String) :=
  match key with
  | "title" => some ("root", "title")
  | "descriptionHtml" => some ("root", "bodyHtml")
  | "vendor" => some ("root", "vendor")
  | "productType" => some ("root", "productType")
  | "tags" => some ("root", "tags")
  | "status" => some ("root", "status")
  | "handle" => some ("root", "handle")
  | "publishedAt" => some ("root", "publishedAt")
  | "requiresSellingPlan" => some ("root", "requiresSellingPlan")
  | "templateSuffix" => some ("root", "templateSuffix")
  | "sku" => some ("inventoryItem", "sku")
  | "barcode" => some ("inventoryItem", "barcode")
  | "price" => some ("inventoryItem", "price")
  | "compareAtPrice" => some ("inventoryItem", "compareAtPrice")
  | "weight" => some ("inventoryItem", "weight")
  | "weightUnit" => some ("inventoryItem", "weightUnit")
  | "inventoryPolicy" => some ("inventoryItem", "inventoryPolicy")
  | "inventoryQuantity" => some ("inventoryItem", "inventoryQuantity")
  | "inventoryManagement" => some ("inventoryItem", "inventoryManagement")
  | "taxable" => some ("inventoryItem", "taxable")
  | "taxCode" => some ("inventoryItem", "taxCode")
  | "harmonizedSystemCode" => some ("inventoryItem", "harmonizedSystemCode")
  | "requiresShipping" => some ("inventoryItem", "requiresShipping")
  | "FIELD_TITLE" => some ("root", "title")
  | "FIELD_DESCRIPTION_HTML" => some ("root", "bodyHtml")
  | "FIELD_VENDOR" => some ("root", "vendor")
  | "FIELD_PRODUCT_TYPE" => some ("root", "productType")
  | "FIELD_TAGS" => some ("root", "tags")
  | "FIELD_STATUS" => some ("root", "status")
  | "FIELD_HANDLE" => some ("root", "handle")
  | "FIELD_PUBLISHED_AT" => some ("root", "publishedAt")
  | "FIELD_REQUIRES_SELLING_PLAN" => some ("root", "requiresSellingPlan")
  | "FIELD_TEMPLATE_SUFFIX" => some ("root", "templateSuffix")
  | "FIELD_SKU" => some ("inventoryItem", "sku")
  | "FIELD_BARCODE" => some ("inventoryItem", "barcode")
  | "FIELD_PRICE" => some ("inventoryItem", "price")
  | "FIELD_COMPARE_AT_PRICE" => some ("inventoryItem", "compareAtPrice")
  | "FIELD_WEIGHT" => some ("inventoryItem", "weight")
  | "FIELD_WEIGHT_UNIT" => some ("inventoryItem", "weightUnit")
  | "FIELD_INVENTORY_POLICY" => some ("inventoryItem", "inventoryPolicy")
  | "FIELD_INVENTORY_QUANTITY" => some ("inventoryItem", "inventoryQuantity")
  | "FIELD_INVENTORY_MANAGEMENT" => some ("inventoryItem", "inventoryManagement")
  | "FIELD_TAXABLE" => some ("inventoryItem", "taxable")
  | "FIELD_TAX_CODE" => some ("inventoryItem", "taxCode")
  | "FIELD_HARMONIZED_SYSTEM_CODE" => some ("inventoryItem", "harmonizedSystemCode")
  | "FIELD_REQUIRES_SHIPPING" => some ("inventoryItem", "requiresShipping")
  | _ => none

/-- `previewData[target][key] = value` without an existence guard (the
detail variant writes into the initialised nested groups directly; a
write on a primitive is a sloppy-mode no-op, unreachable here). -/
def setNestedFieldDirect (pd : JsonFields) (target key : String) (v : Json) : JsonFields :=
  match (pd.lookup target).getD .undefined with
  | .obj fs => pd.set target (.obj (fs.set key v))
  | _ => pd

/-- Place a value per the detail placement map, or at the root under the
mapping's own target name when unrecognised. -/
def detailPlace (pd : JsonFields) (target : String) (value : Json) : JsonFields :=
  match DETAIL_FIELD_PLACEMENT_MAP target with
  | some p =>
    if p.1 = "root" then pd.set p.2 value
    else setNestedFieldDirect pd p.1 p.2 value
  | none => pd.set target value

/-- One `Object.entries(mapping)` iteration of the detail transform's
second pass. -/
def detailApplyEntry (sourceProduct : Json) (pd : JsonFields) :
    String × MappingVal → JsonFields
  | (target, .nested entries) =>
    if target = "seo" ∨ target = "inventoryItem" then
      entries.foldl (fun pd fk =>
        if jsGet sourceProduct fk.2 ≠ .undefined then
          setNestedFieldDirect pd target fk.1 (jsGet sourceProduct fk.2)
        else pd) pd
    else
      -- `sourceProduct[sourceKey]` with an object source key coerces the
      -- key to the string "[object Object]".
      if jsGet sourceProduct "[object Object]" ≠ .undefined then
        detailPlace pd target (jsGet sourceProduct "[object Object]")
      else pd
  | (target, .key s) =>
    if jsGet sourceProduct s ≠ .undefined then detailPlace pd target (jsGet sourceProduct s)
    else pd

/-- The detail page's `generatePreviewForProduct(sourceProduct, mapping,
metafieldMappings)`: the guard, the auto-copy pass over
`Object.keys(sourceProduct)`, the mapping pass, the empty-group cleanup
and the metafield pass (identical to the wizard's). -/
def generatePreviewForProductDetail (sourceProduct : Json)
    (mapping : List (String × MappingVal)) (metafieldMappings : List MetafieldMapping) : Json :=
  if ¬ (sourceProduct.truthy ∧ sourceProduct.typeofObject) then
    .objL [("error", .str "Invalid source product data for preview.")]
  else
    let pd : JsonFields := .cons "seo" (.obj .nil) (.cons "inventoryItem" (.obj .nil) .nil)
    let pd := (jsOwnKeys sourceProduct).foldl (fun pd key =>
      match DETAIL_FIELD_PLACEMENT_MAP key with
      | some p =>
        if p.1 = "root" then pd.set p.2 (jsGet sourceProduct key)
        else setNestedFieldDirect pd p.1 p.2 (jsGet sourceProduct key)
      | none => pd) pd
    let pd :=
      if mapping ≠ [] then
        mapping.foldl (fun pd entry => detailApplyEntry sourceProduct pd entry) pd
      else pd
    let pd := if pd.lookup "seo" = some (.obj .nil) then pd.del "seo" else pd
    let pd := if pd.lookup "inventoryItem" = some (.obj .nil) then pd.del "inventoryItem" else pd
    let previewMetafields :=
      (metafieldMappings.map (fun m => emitMetafieldsForMapping sourceProduct m)).flatten
    let pd :=
      if previewMetafields ≠ [] then pd.set "metafields" (.arr (JsonList.ofList previewMetafields))
      else pd
    .obj pd

/-! ## AI-suggestion merge: `handleAiMapClick` -/

/-- `isArrayOfObjects(data)`. -/
def isArrayOfObjects : Json → Bool
  | .arr (.cons hd _) => hd.typeofObject && hd != .null
  | _ => false

/-- JS `Object.prototype.hasOwnProperty.call(v, key)` for the object or
array values it is applied to here. -/
def jsHasOwnProperty (v : Json) (key : String) : Bool :=
  match v with
  | .obj fs => fs.hasKey key
  | .arr xs =>
    match strToNatJS key with
    | some n => n < xs.length
    | none => false
  | _ => false

/-- The AI response, already shaped: `""` models an absent or non-string
`titleKey`; `optionalFieldKeys` lists the entries of the suggested
object (`[]` when absent or not an object); `metafieldMappings` is
`none` when the response carries no array (the code then clears the
mappings). -/
structure AiSuggestion where
  titleKey : String
  optionalFieldKeys : List (String × String)
  metafieldMappings : Option (List MetafieldMapping)
  deriving DecidableEq, Repr

/-- The per-row filter of suggested metafield mappings: required fields
present, `sourceKey` among the available keys, the per-type required
fields present, and — for `dynamic_from_array` — the data at `sourceKey`
an array of objects whose first element owns both array-source keys. -/
def validSuggestedMetafield (availableSourceKeys : List String)
    (processedPreviewData : Json) (mf : MetafieldMapping) : Bool :=
  if mf.mappingType = "" ∨ mf.sourceKey = "" ∨ mf.metafieldNamespace = "" ∨
      mf.metafieldType = "" then false
  else if ¬ mf.sourceKey ∈ availableSourceKeys then false
  else if mf.mappingType = "single" ∧ mf.metafieldKey = "" then false
  else if mf.mappingType = "dynamic_from_array" ∧
      (mf.arrayKeySource = "" ∨ mf.arrayValueSource = "") then false
  else if mf.mappingType = "dynamic_from_array" then
    let sourceData := jsGet processedPreviewData mf.sourceKey
    if ¬ isArrayOfObjects sourceData then false
    else
      match sourceData with
      | .arr (.cons firstItem _) =>
        jsHasOwnProperty firstItem mf.arrayKeySource &&
          jsHasOwnProperty firstItem mf.arrayValueSource
      | _ => false
  else true

/-- JS object spread `{...prev, ...extra}`: keys of `prev` in order with
values overridden by `extra` where present, then the new keys of `extra`
in their own order. -/
def spreadRight (prev extra : List (String × String)) : List (String × String) :=
  prev.map (fun fk =>
    match extra.lookup fk.1 with
    | some v => (fk.1, v)
    | none => fk) ++
  extra.filter (fun fk => !(prev.any (fun pk => pk.1 == fk.1)))

/-- JS `[...new Set(xs)]`: first-occurrence deduplication. -/
def dedupFirstAux (seen : List String) : List String → List String
  | [] => []
  | x :: xs =>
    if x ∈ seen then dedupFirstAux seen xs
    else x :: dedupFirstAux (x :: seen) xs

/-- JS `[...new Set(xs)]`. -/
def dedupFirst (xs : List String) : List String := dedupFirstAux [] xs

/-- The state updates of `handleAiMapClick` once a suggestion object has
arrived: `titleKey` is overwritten only by a valid suggested key;
suggested optional-field entries whose constant and source key both
validate are spread over the existing `optionalFieldKeys` and their
fields unioned into `activeOptionalFields`; `metafieldMappings` is
*replaced* by the individually validated suggested rows (emptied when
the suggestion carries no array). -/
def mergeSuggestions (spec : MappingSpec) (suggested : AiSuggestion)
    (mappingOptions : List FieldOption) (fieldConstants : List (String × String))
    (processedPreviewData : Json) : MappingSpec :=
  let availableSourceKeys := mappingOptions.map (fun o => o.value)
  let newOptionalEntries := suggested.optionalFieldKeys.filter (fun fk =>
    fieldConstants.any (fun c => c.1 == fk.1) && availableSourceKeys.contains fk.2)
  { titleKey :=
      if suggested.titleKey ≠ "" ∧ suggested.titleKey ∈ availableSourceKeys then
        suggested.titleKey
      else spec.titleKey
    optionalFieldKeys := spreadRight spec.optionalFieldKeys newOptionalEntries
    activeOptionalFields :=
      dedupFirst (spec.activeOptionalFields ++ newOptionalEntries.map (fun fk => fk.1))
    metafieldMappings :=
      match suggested.metafieldMappings with
      | some ms => ms.filter (fun mf =>
          validSuggestedMetafield availableSourceKeys processedPreviewData mf)
      | none => [] }

/-! ## Relating the two resolver variants -/

/-- Whether walking `parts` from `r` never meets an array at a
non-indexed segment: along such traversals the two resolver loops take
exactly the same branches. -/
def noBareArray : List String → Json → Bool
  | [], _ => true
  | part :: rest, r =>
    if r.isNullish then true
    else if partHasBracket part then
      match bracketStep part r with
      | some next => noBareArray rest next
      | none => true
    else if r.isArray then false
    else noBareArray rest (jsGet r part)

/-! ## Concrete inputs shared by the claims -/

/-- `{a: 1}`. -/
def itemOne : Json := .objL [("a", .num 1)]

/-- `{a: 2}`. -/
def itemTwo : Json := .objL [("a", .num 2)]

/-- The elements of `{items:[{a:1},{a:2}]}.items`. -/
def itemsXs : JsonList := JsonList.ofList [itemOne, itemTwo]

/-- `{items:[{a:1},{a:2}]}`. -/
def itemsRoot : Json := .obj (.cons "items" (.arr itemsXs) .nil)

/-- `{items:[]}`. -/
def emptyItemsRoot : Json := .objL [("items", .arrL [])]

/-- `{"sku":"X1","title":"Widget","price":9.99}`. -/
def widgetRecord : Json :=
  .objL [("sku", .str "X1"), ("title", .str "Widget"), ("price", .num 9.99)]

/-- A single discovered option `a`. -/
def optsA : List FieldOption := [{ label := "a", value := "a" }]

/-- A spec whose `FIELD_VENDOR` is enrolled but mapped to a key (`gone`)
absent from `optsA`. -/
def staleSpec : MappingSpec :=
  { titleKey := "a"
    optionalFieldKeys := [("FIELD_VENDOR", "gone")]
    activeOptionalFields := ["FIELD_VENDOR"]
    metafieldMappings := [] }

/-- An empty mapping spec. -/
def emptySpec : MappingSpec :=
  { titleKey := "", optionalFieldKeys := [], activeOptionalFields := [], metafieldMappings := [] }

/-- A `Single` metafield row mapping `inStock` to `custom.in_stock`. -/
def inStockRow : MetafieldMapping :=
  { mappingType := "single"
    sourceKey := "inStock"
    metafieldNamespace := "custom"
    metafieldKey := "in_stock"
    metafieldType := "boolean"
    arrayKeySource := ""
    arrayValueSource := "" }

/-- An existing `Single` metafield row on source key `t`. -/
def existingRow : MetafieldMapping :=
  { mappingType := "single"
    sourceKey := "t"
    metafieldNamespace := "custom"
    metafieldKey := "k"
    metafieldType := "single_line_text_field"
    arrayKeySource := ""
    arrayValueSource := "" }

/-- A spec holding one user-authored metafield row. -/
def specWithRow : MappingSpec :=
  { titleKey := "t"
    optionalFieldKeys := []
    activeOptionalFields := []
    metafieldMappings := [existingRow] }

/-- An AI response suggesting nothing (an empty metafield array). -/
def emptyAiSuggestion : AiSuggestion :=
  { titleKey := "", optionalFieldKeys := [], metafieldMappings := some [] }

/-- The single option `t`. -/
def optsT : List FieldOption := [{ label := "t", value := "t" }]

/-- A `Single` metafield row mapping `p` to `custom.k`. -/
def pRow : MetafieldMapping :=
  { mappingType := "single"
    sourceKey := "p"
    metafieldNamespace := "custom"
    metafieldKey := "k"
    metafieldType := "single_line_text_field"
    arrayKeySource := ""
    arrayValueSource := "" }

/-! ## Theorems -/

theorem runPath_eq_of_noBareArray (parts : List String) :
    ∀ r : Json, noBareArray parts r = true → runPathUnwrap parts r = runPathPreserve parts r := by
  induction parts with
  | nil => intro r _; rfl
  | cons part rest ih =>
    intro r h
    unfold noBareArray at h
    cases rest with
    | nil =>
      unfold runPathUnwrap runPathPreserve
      by_cases hn : r.isNullish
      · simp [hn]
      · simp only [hn, Bool.false_eq_true, if_false] at h ⊢
        by_cases hb : partHasBracket part
        · simp only [hb, if_true] at h ⊢
          cases hs : bracketStep part r with
          | some next => simp only [hs] at h ⊢; exact ih _ h
          | none => simp [hs]
        · simp only [hb, Bool.false_eq_true, if_false] at h ⊢
          by_cases ha : r.isArray
          · simp [ha] at h
          · simp only [ha, Bool.false_eq_true, if_false] at h ⊢
            exact ih _ h
    | cons next rest2 =>
      unfold runPathUnwrap runPathPreserve
      by_cases hn : r.isNullish
      · simp [hn]
      · simp only [hn, Bool.false_eq_true, if_false] at h ⊢
        by_cases hb : partHasBracket part
        · simp only [hb, if_true] at h ⊢
          cases hs : bracketStep part r with
          | some nxt => simp only [hs] at h ⊢; exact ih _ h
          | none => simp [hs]
        · simp only [hb, Bool.false_eq_true, if_false] at h ⊢
          by_cases ha : r.isArray
          · simp [ha] at h
          · simp only [ha, Bool.false_eq_true, if_false] at h ⊢
            exact ih _ h

/-! ## Claim theorems -/

/-- C1: the spec requires a `Single` metafield mapping to emit
`record[sourceKey]` whenever it is defined, including falsy values such
as `false`.  The code instead skips the row with the truthiness test
`!sourceProduct[mapping.sourceKey]`: on `record = {inStock: false}` and
a fully populated `Single` mapping on `inStock`, the transform emits no
metafield at all (the output is only the `title: undefined` marker). -/
theorem claimC1_falsy_single_metafield_dropped :
    generatePreviewForProduct (.objL [("inStock", .bool false)])
      { emptySpec with metafieldMappings := [inStockRow] } = .objL [("title", .undefined)] ∧
    outputMetafields (generatePreviewForProduct (.objL [("inStock", .bool false)])
      { emptySpec with metafieldMappings := [inStockRow] }) = [] := by
  decide

/-- C2 (counterexample): `resolve({items:[{a:1},{a:2}]}, "items.a")` is
not `[1,2]` on either resolver variant: the preserve variant returns the
array of objects intact (its broadcast only fires before the last
segment) and the unwrap variant returns `1`. -/
theorem claimC2_counterexample :
    getDataFromPathPreserve itemsRoot "items.a" = .arr itemsXs ∧
    getDataFromPathUnwrap itemsRoot "items.a" = .num 1 ∧
    getDataFromPathPreserve itemsRoot "items.a" ≠ .arrL [.num 1, .num 2] ∧
    getDataFromPathUnwrap itemsRoot "items.a" ≠ .arrL [.num 1, .num 2] := by
  decide

/-- C2 (amended): in the preserve variant, a non-indexed segment met
while the current value is an array is broadcast
(`array.map(item => item?.[segment])`) only when it is not the final
segment, and the traversal then skips the following segment; an array
met at the final segment is returned intact with that segment ignored.
In particular `resolve({items:[{a:1},{a:2}]}, "items.a")` is the
untouched array while `resolve({items:[{a:1},{a:2}]}, "items.a.x")` is
`[1,2]`. -/
theorem claimC2_amended (part next : String) (rest : List String) (xs : JsonList)
    (h : partHasBracket part = false) :
    runPathPreserve (part :: next :: rest) (.arr xs) =
      runPathPreserve rest (.arr (xs.map (fun item => jsGetOpt item part))) ∧
    runPathPreserve [part] (.arr xs) = .arr xs ∧
    getDataFromPathPreserve itemsRoot "items.a" = .arr itemsXs ∧
    getDataFromPathPreserve itemsRoot "items.a.x" = .arrL [.num 1, .num 2] := by
  refine ⟨?_, ?_, by decide, by decide⟩
  · conv_lhs => unfold runPathPreserve
    simp [h, Json.isNullish, Json.isArray, broadcastSegment]
  · conv_lhs => unfold runPathPreserve
    simp [h, Json.isNullish, Json.isArray]

theorem claimC2_amended_witness :
    runPathPreserve ["a", "x"] (.arr itemsXs) =
      runPathPreserve [] (.arr (itemsXs.map (fun item => jsGetOpt item "a"))) :=
  (claimC2_amended "a" "x" [] itemsXs (by decide)).1

/-- C7 (counterexample): the detail page's transform variant does not
produce exactly `{title:"Widget"}` for `{"sku":"X1","title":"Widget",
"price":9.99}` under the mapping `{title:"title"}`: its auto-copy pass
places the unmapped `sku` and `price` under `inventoryItem`. -/
theorem claimC7_counterexample :
    generatePreviewForProductDetail widgetRecord [("title", .key "title")] [] =
      .objL [("inventoryItem", .objL [("sku", .str "X1"), ("price", .num 9.99)]),
             ("title", .str "Widget")] ∧
    generatePreviewForProductDetail widgetRecord [("title", .key "title")] [] ≠
      .objL [("title", .str "Widget")] := by
  constructor
  · rfl
  · intro hcontra
    have : Json.objL [("inventoryItem", .objL [("sku", .str "X1"), ("price", .num 9.99)]),
        ("title", .str "Widget")] = .objL [("title", .str "Widget")] := by
      calc Json.objL [("inventoryItem", .objL [("sku", .str "X1"), ("price", .num 9.99)]),
              ("title", .str "Widget")]
          = generatePreviewForProductDetail widgetRecord [("title", .key "title")] [] := by rfl
        _ = .objL [("title", .str "Widget")] := hcontra
    simp [Json.objL, JsonFields.ofList] at this

/-- C7 (amended): the wizard's transform variant does produce exactly
`{title:"Widget"}` on that record with a spec containing only
`titleKey: "title"`; the detail variant additionally auto-copies the
recognised source keys `sku` and `price` into `inventoryItem`. -/
theorem claimC7_amended :
    generatePreviewForProduct widgetRecord { emptySpec with titleKey := "title" } =
      .objL [("title", .str "Widget")] := by
  decide

/-- C8: for a bracketed segment both resolver variants resolve the
named field first, require an array with `length > N` (continuing with
the indexed element), and return `null` otherwise — including when the
named field is not an array at all; in particular
`resolve({items:[{a:1},{a:2}]}, "items[1].a") = 2` and
`resolve({items:[]}, "items[0]") = null` on both variants. -/
theorem claimC8_indexed_access :
    (∀ (r : Json) (rest : List String) (part : String),
      r.isNullish = false → partHasBracket part = true →
      (∀ xs : JsonList, jsGet r (bracketParts part).1 = .arr xs →
        ∀ i : Int, parseIntJS (removeFirstBracket (bracketParts part).2) = some i →
          (((xs.length : Int) > i →
              runPathPreserve (part :: rest) r = runPathPreserve rest (jsonIndex xs i) ∧
              runPathUnwrap (part :: rest) r = runPathUnwrap rest (jsonIndex xs i)) ∧
            (¬ (xs.length : Int) > i →
              runPathPreserve (part :: rest) r = .null ∧
              runPathUnwrap (part :: rest) r = .null))) ∧
      ((jsGet r (bracketParts part).1).isArray = false →
        runPathPreserve (part :: rest) r = .null ∧ runPathUnwrap (part :: rest) r = .null)) ∧
    getDataFromPathPreserve itemsRoot "items[1].a" = .num 2 ∧
    getDataFromPathUnwrap itemsRoot "items[1].a" = .num 2 ∧
    getDataFromPathPreserve emptyItemsRoot "items[0]" = .null ∧
    getDataFromPathUnwrap emptyItemsRoot "items[0]" = .null := by
  refine ⟨?_, by decide, by decide, by decide, by decide⟩
  intro r rest part hn hb
  constructor
  · intro xs hxs i hi
    constructor
    · intro hlen
      have hstep : bracketStep part r = some (jsonIndex xs i) := by
        unfold bracketStep
        rw [hxs, hi]
        simp [hlen]
      constructor
      · cases rest with
        | nil =>
          conv_lhs => unfold runPathPreserve
          simp [hn, hb, hstep]
        | cons next rest2 =>
          conv_lhs => unfold runPathPreserve
          simp [hn, hb, hstep]
      · conv_lhs => unfold runPathUnwrap
        simp [hn, hb, hstep]
    · intro hlen
      have hstep : bracketStep part r = none := by
        unfold bracketStep
        rw [hxs, hi]
        simp [hlen]
      constructor
      · cases rest with
        | nil =>
          conv_lhs => unfold runPathPreserve
          simp [hn, hb, hstep]
        | cons next rest2 =>
          conv_lhs => unfold runPathPreserve
          simp [hn, hb, hstep]
      · conv_lhs => unfold runPathUnwrap
        simp [hn, hb, hstep]
  · intro hna
    have hstep : bracketStep part r = none := by
      unfold bracketStep
      cases hj : jsGet r (bracketParts part).1 with
      | arr xs => rw [hj] at hna; simp [Json.isArray] at hna
      | undefined => simp
      | null => simp
      | bool b => simp
      | num q => simp
      | str s => simp
      | obj fs => simp
    constructor
    · cases rest with
      | nil =>
        conv_lhs => unfold runPathPreserve
        simp [hn, hb, hstep]
      | cons next rest2 =>
        conv_lhs => unfold runPathPreserve
        simp [hn, hb, hstep]
    · conv_lhs => unfold runPathUnwrap
      simp [hn, hb, hstep]

theorem claimC8_indexed_access_witness :
    runPathPreserve ["items[1]", "a"] itemsRoot = runPathPreserve ["a"] (jsonIndex itemsXs 1) :=
  (((claimC8_indexed_access.1 itemsRoot ["a"] "items[1]" (by decide) (by decide)).1
    itemsXs (by decide) 1 (by decide)).1 (by decide)).1

/-- C9 (counterexample): the two resolver variants do not differ only in
terminal-array policy.  On `{items:[{a:1},{a:2}]}` with path `items.a`
the preserve variant returns the array `[{a:1},{a:2}]`, whose first
element is `{a:1}` — but the unwrap variant returns `1`, not `{a:1}`:
mid-traversal array handling genuinely diverges, beyond unwrapping. -/
theorem claimC9_counterexample :
    getDataFromPathPreserve itemsRoot "items.a" = .arr itemsXs ∧
    getDataFromPathUnwrap itemsRoot "items.a" = .num 1 ∧
    unwrapTerminalArray (.arr itemsXs) = itemOne ∧
    itemOne ≠ .num 1 := by
  decide

/-- C9 (amended): the two variants share the empty-path, nullish,
bracket-index and plain-object logic, and the unwrap variant's result is
exactly the terminal unwrap of the preserve variant's result on every
non-empty path whose traversal never reaches an array at a non-indexed
segment; when such an array is reached the variants diverge beyond
terminal unwrapping (see the counterexample). -/
theorem claimC9_amended (obj : Json) (path : String) (hpath : path ≠ "")
    (hnb : noBareArray (splitOnChar '.' path) obj = true) :
    getDataFromPathUnwrap obj path = unwrapTerminalArray (getDataFromPathPreserve obj path) := by
  unfold getDataFromPathUnwrap getDataFromPathPreserve
  rw [if_neg hpath, if_neg hpath, runPath_eq_of_noBareArray _ _ hnb]

theorem claimC9_amended_witness :
    getDataFromPathUnwrap (.objL [("a", .objL [("b", .arrL [.num 1, .num 2])])]) "a.b" =
      unwrapTerminalArray
        (getDataFromPathPreserve (.objL [("a", .objL [("b", .arrL [.num 1, .num 2])])]) "a.b") :=
  claimC9_amended (.objL [("a", .objL [("b", .arrL [.num 1, .num 2])])]) "a.b"
    (by decide) (by decide)

/-! ## Validator lemmas -/

theorem validateMappingSpec_cons (spec : MappingSpec) (o : FieldOption)
    (os : List FieldOption) :
    validateMappingSpec spec (o :: os) =
      { titleKey := autoSelectKey spec.titleKey (o :: os) ((o :: os).map (fun x => x.value))
        optionalFieldKeys := spec.optionalFieldKeys.map (fun fk =>
          if fk.2 ≠ "" ∧ fk.2 ∉ (o :: os).map (fun x => x.value) then (fk.1, "") else fk)
        activeOptionalFields := spec.activeOptionalFields.filter (fun field =>
          lookupKey spec.optionalFieldKeys field != "" &&
            ((o :: os).map (fun x => x.value)).contains (lookupKey spec.optionalFieldKeys field))
        metafieldMappings := spec.metafieldMappings.map (fun m =>
          if m.sourceKey ≠ "" ∧ m.sourceKey ∉ (o :: os).map (fun x => x.value) then
            { m with sourceKey := "" }
          else m) } := by
  simp only [validateMappingSpec]
  rw [if_pos]
  exact Nat.succ_pos os.length

theorem validateMappingSpec_nil (spec : MappingSpec) :
    validateMappingSpec spec [] =
      { titleKey := "", optionalFieldKeys := [], activeOptionalFields := [],
        metafieldMappings := [] } := rfl

theorem MappingSpec.ext_fields (a b : MappingSpec)
    (h1 : a.titleKey = b.titleKey)
    (h2 : a.optionalFieldKeys = b.optionalFieldKeys)
    (h3 : a.activeOptionalFields = b.activeOptionalFields)
    (h4 : a.metafieldMappings = b.metafieldMappings) : a = b := by
  cases a; cases b
  simp only at h1 h2 h3 h4
  rw [h1, h2, h3, h4]

theorem lookupKey_reset (l : List (String × String)) (V : List String) (f : String) :
    lookupKey (l.map (fun fk => if fk.2 ≠ "" ∧ fk.2 ∉ V then (fk.1, "") else fk)) f =
      (if lookupKey l f ≠ "" ∧ lookupKey l f ∉ V then "" else lookupKey l f) := by
  induction l with
  | nil => simp [lookupKey]
  | cons fk tl ih =>
    by_cases hk : fk.1 = f
    · by_cases hc : fk.2 ≠ "" ∧ fk.2 ∉ V
      · simp [lookupKey, hk, hc]
      · simp [lookupKey, hk, hc]
    · by_cases hc : fk.2 ≠ "" ∧ fk.2 ∉ V
      · simp [lookupKey, hk, hc, ih]
      · simp [lookupKey, hk, hc, ih]

theorem map_reset_keys_idem (l : List (String × String)) (V : List String) :
    ((l.map (fun fk => if fk.2 ≠ "" ∧ fk.2 ∉ V then (fk.1, "") else fk)).map
        (fun fk => if fk.2 ≠ "" ∧ fk.2 ∉ V then (fk.1, "") else fk)) =
      l.map (fun fk => if fk.2 ≠ "" ∧ fk.2 ∉ V then (fk.1, "") else fk) := by
  induction l with
  | nil => rfl
  | cons fk tl ih =>
    by_cases hc : fk.2 ≠ "" ∧ fk.2 ∉ V
    · simp only [List.map_cons, if_pos hc, ih]
      simp
    · simp only [List.map_cons, if_neg hc, ih]

theorem map_reset_metafields_idem (l : List MetafieldMapping) (V : List String) :
    ((l.map (fun m => if m.sourceKey ≠ "" ∧ m.sourceKey ∉ V then { m with sourceKey := "" }
        else m)).map
      (fun m => if m.sourceKey ≠ "" ∧ m.sourceKey ∉ V then { m with sourceKey := "" } else m)) =
      l.map (fun m => if m.sourceKey ≠ "" ∧ m.sourceKey ∉ V then { m with sourceKey := "" }
        else m) := by
  induction l with
  | nil => rfl
  | cons m tl ih =>
    by_cases hc : m.sourceKey ≠ "" ∧ m.sourceKey ∉ V
    · simp only [List.map_cons, if_pos hc, ih]
      simp
    · simp only [List.map_cons, if_neg hc, ih]

/-! ## Claims about the validator -/

/-- C3 (counterexample): with the non-empty option list `[a]` and the
stale (set-but-invalid) `titleKey` `zzz`, validation clears `titleKey`
to `""` instead of auto-selecting the first option `a`, and clears it
although the option list is non-empty. -/
theorem claimC3_counterexample :
    "zzz" ∉ optsA.map (fun x => x.value) ∧
    (validateMappingSpec { emptySpec with titleKey := "zzz" } optsA).titleKey = "" ∧
    (validateMappingSpec { emptySpec with titleKey := "zzz" } optsA).titleKey ≠ "a" := by
  decide

/-- C3 (amended): with a non-empty option list, `titleKey` is kept when
still valid, auto-selected to the first option's value only when it was
empty, and cleared to `""` when it was set but invalid; with an empty
option list it is cleared. -/
theorem claimC3_amended (spec : MappingSpec) (o : FieldOption) (os : List FieldOption) :
    (validateMappingSpec spec (o :: os)).titleKey =
      (if spec.titleKey = "" then o.value
       else if spec.titleKey ∈ (o :: os).map (fun x => x.value) then spec.titleKey
       else "") ∧
    (validateMappingSpec spec []).titleKey = "" := by
  constructor
  · rw [validateMappingSpec_cons]
    show autoSelectKey spec.titleKey (o :: os) ((o :: os).map (fun x => x.value)) = _
    unfold autoSelectKey checkAndSetKey
    by_cases ht : spec.titleKey = ""
    · simp [ht]
    · by_cases hm : spec.titleKey ∈ (o :: os).map (fun x => x.value)
      · rw [if_neg (fun hc => ht hc.1), if_neg (fun hc => hc.2 hm), if_neg ht, if_pos hm]
      · rw [if_neg (fun hc => ht hc.1), if_pos (And.intro ht hm), if_neg ht, if_neg hm]
  · rfl

/-- C4 (counterexample): validation over `optsA` resets the stale
`FIELD_VENDOR` entry to `""` as claimed, but it does not leave
`activeOptionalFields` unchanged: the stale field is un-enrolled. -/
theorem claimC4_counterexample :
    (validateMappingSpec staleSpec optsA).optionalFieldKeys = [("FIELD_VENDOR", "")] ∧
    (validateMappingSpec staleSpec optsA).activeOptionalFields = [] ∧
    staleSpec.activeOptionalFields = ["FIELD_VENDOR"] := by
  decide

/-- C4 (amended): with a non-empty option list, each `optionalFieldKeys`
entry whose value is set but stale is reset to `""` (valid entries are
kept), while `activeOptionalFields` is filtered: a field stays enrolled
exactly when its pre-validation mapped key is non-empty and still
valid. -/
theorem claimC4_amended (spec : MappingSpec) (o : FieldOption) (os : List FieldOption)
    (f : String) :
    (f ∈ (validateMappingSpec spec (o :: os)).activeOptionalFields ↔
      (f ∈ spec.activeOptionalFields ∧ lookupKey spec.optionalFieldKeys f ≠ "" ∧
        lookupKey spec.optionalFieldKeys f ∈ (o :: os).map (fun x => x.value))) ∧
    (∀ k, (f, k) ∈ spec.optionalFieldKeys → k ≠ "" →
      k ∉ (o :: os).map (fun x => x.value) →
      (f, "") ∈ (validateMappingSpec spec (o :: os)).optionalFieldKeys) ∧
    (∀ k, (f, k) ∈ spec.optionalFieldKeys → k ∈ (o :: os).map (fun x => x.value) →
      (f, k) ∈ (validateMappingSpec spec (o :: os)).optionalFieldKeys) := by
  rw [validateMappingSpec_cons]
  refine ⟨?_, ?_, ?_⟩
  · show f ∈ spec.activeOptionalFields.filter _ ↔ _
    rw [List.mem_filter]
    simp [List.elem_iff]
  · intro k hk hne hnot
    show (f, "") ∈ spec.optionalFieldKeys.map _
    have h2 := List.mem_map_of_mem
      (fun fk : String × String =>
        if fk.2 ≠ "" ∧ fk.2 ∉ (o :: os).map (fun x => x.value) then (fk.1, "") else fk) hk
    simp only [if_pos (And.intro hne hnot)] at h2
    exact h2
  · intro k hk hmem
    show (f, k) ∈ spec.optionalFieldKeys.map _
    have h2 := List.mem_map_of_mem
      (fun fk : String × String =>
        if fk.2 ≠ "" ∧ fk.2 ∉ (o :: os).map (fun x => x.value) then (fk.1, "") else fk) hk
    have hcond : ¬ ((f, k).2 ≠ "" ∧ (f, k).2 ∉ (o :: os).map (fun x => x.value)) :=
      fun hc => hc.2 hmem
    simp only [if_neg hcond] at h2
    exact h2

theorem claimC4_amended_witness :
    ("FIELD_VENDOR", "") ∈
      (validateMappingSpec staleSpec optsA).optionalFieldKeys :=
  (claimC4_amended staleSpec { label := "a", value := "a" } [] "FIELD_VENDOR").2.1 "gone"
    (by decide) (by decide) (by decide)

theorem autoSelectKey_idem (t : String) (o : FieldOption) (os : List FieldOption)
    (h : t = "" ∨ t ∈ (o :: os).map (fun x => x.value)) :
    autoSelectKey (autoSelectKey t (o :: os) ((o :: os).map (fun x => x.value))) (o :: os)
        ((o :: os).map (fun x => x.value)) =
      autoSelectKey t (o :: os) ((o :: os).map (fun x => x.value)) := by
  have hmemo : o.value ∈ (o :: os).map (fun x => x.value) :=
    List.mem_map_of_mem _ (List.mem_cons_self o os)
  have h0 : autoSelectKey "" (o :: os) ((o :: os).map (fun x => x.value)) = o.value := by
    unfold autoSelectKey
    rw [if_pos]
    exact And.intro rfl (Nat.succ_pos os.length)
  have hstable : ∀ s, s ≠ "" → s ∈ (o :: os).map (fun x => x.value) →
      autoSelectKey s (o :: os) ((o :: os).map (fun x => x.value)) = s := by
    intro s hs hsm
    unfold autoSelectKey checkAndSetKey
    rw [if_neg (fun hc => hs hc.1), if_neg (fun hc => hc.2 hsm)]
  rcases h with ht | hm
  · rw [ht, h0]
    by_cases ho : o.value = ""
    · rw [ho, h0, ho]
    · exact hstable o.value ho hmemo
  · by_cases ht : t = ""
    · rw [ht, h0]
      by_cases ho : o.value = ""
      · rw [ho, h0, ho]
      · exact hstable o.value ho hmemo
    · have hA := hstable t ht hm
      rw [hA]
      exact hA

/-- C6 (counterexample): validation is not idempotent.  With the stale
`titleKey` `zzz` and options `[a]`, the first pass clears `titleKey` to
`""` and the second pass then auto-selects `a`, so
`validate(validate(spec, opts), opts) ≠ validate(spec, opts)`. -/
theorem claimC6_counterexample :
    validateMappingSpec (validateMappingSpec { emptySpec with titleKey := "zzz" } optsA) optsA ≠
      validateMappingSpec { emptySpec with titleKey := "zzz" } optsA := by
  decide

/-- C6 (amended): validation is idempotent on an empty option list, and
on any option list whenever the spec's `titleKey` is empty or still
valid; with a non-empty option list and a set-but-stale `titleKey` the
inner pass clears it and the outer pass auto-selects the first option,
which is what breaks idempotence in general. -/
theorem claimC6_amended (spec : MappingSpec) (opts : List FieldOption)
    (h : spec.titleKey = "" ∨ spec.titleKey ∈ opts.map (fun x => x.value)) :
    validateMappingSpec (validateMappingSpec spec opts) opts = validateMappingSpec spec opts := by
  cases opts with
  | nil => simp [validateMappingSpec_nil]
  | cons o os =>
    rw [validateMappingSpec_cons spec o os, validateMappingSpec_cons]
    apply MappingSpec.ext_fields
    · show autoSelectKey (autoSelectKey spec.titleKey (o :: os)
          ((o :: os).map (fun x => x.value))) (o :: os) ((o :: os).map (fun x => x.value)) =
        autoSelectKey spec.titleKey (o :: os) ((o :: os).map (fun x => x.value))
      exact autoSelectKey_idem spec.titleKey o os h
    · show ((spec.optionalFieldKeys.map _).map _) = spec.optionalFieldKeys.map _
      exact map_reset_keys_idem spec.optionalFieldKeys ((o :: os).map (fun x => x.value))
    · show ((spec.activeOptionalFields.filter _).filter _) = spec.activeOptionalFields.filter _
      rw [List.filter_eq_self]
      intro a ha
      rw [List.mem_filter] at ha
      obtain ⟨-, hpa⟩ := ha
      rw [Bool.and_eq_true] at hpa
      obtain ⟨h1, h2⟩ := hpa
      have hne : lookupKey spec.optionalFieldKeys a ≠ "" := by simpa using h1
      have hmem2 : lookupKey spec.optionalFieldKeys a ∈ (o :: os).map (fun x => x.value) := by
        simpa [List.elem_iff] using h2
      have hr : lookupKey (spec.optionalFieldKeys.map (fun fk =>
          if fk.2 ≠ "" ∧ fk.2 ∉ (o :: os).map (fun x => x.value) then (fk.1, "") else fk)) a =
          lookupKey spec.optionalFieldKeys a := by
        rw [lookupKey_reset]
        rw [if_neg (fun hc => hc.2 hmem2)]
      rw [Bool.and_eq_true, hr]
      exact ⟨by simpa using hne, by simpa [List.elem_iff] using hmem2⟩
    · show ((spec.metafieldMappings.map _).map _) = spec.metafieldMappings.map _
      exact map_reset_metafields_idem spec.metafieldMappings ((o :: os).map (fun x => x.value))

theorem claimC6_amended_witness :
    validateMappingSpec (validateMappingSpec staleSpec optsA) optsA =
      validateMappingSpec staleSpec optsA :=
  claimC6_amended staleSpec optsA (Or.inr (by decide))

/-! ## Claims about the AI merge -/

theorem mem_dedupFirstAux (l : List String) :
    ∀ (s : List String) (x : String), x ∈ dedupFirstAux s l ↔ (x ∈ l ∧ x ∉ s) := by
  induction l with
  | nil => intro s x; simp [dedupFirstAux]
  | cons a tl ih =>
    intro s x
    show x ∈ (if a ∈ s then dedupFirstAux s tl else a :: dedupFirstAux (a :: s) tl) ↔ _
    by_cases ha : a ∈ s
    · rw [if_pos ha, ih]
      constructor
      · rintro ⟨hx, hns⟩
        exact ⟨List.mem_cons_of_mem a hx, hns⟩
      · rintro ⟨hx, hns⟩
        rcases List.mem_cons.mp hx with h | h
        · exact absurd (h ▸ ha) hns
        · exact ⟨h, hns⟩
    · rw [if_neg ha]
      constructor
      · intro hx
        rcases List.mem_cons.mp hx with h | h
        · rw [h]
          exact ⟨List.mem_cons_self a tl, ha⟩
        · rw [ih] at h
          obtain ⟨h1, h2⟩ := h
          exact ⟨List.mem_cons_of_mem a h1, fun hs => h2 (List.mem_cons_of_mem a hs)⟩
      · rintro ⟨hx, hns⟩
        by_cases hxa : x = a
        · exact hxa ▸ List.mem_cons_self a _
        · have hx2 : x ∈ tl := by
            rcases List.mem_cons.mp hx with h | h
            · exact absurd h hxa
            · exact h
          apply List.mem_cons_of_mem
          rw [ih]
          refine ⟨hx2, fun hmem => ?_⟩
          rcases List.mem_cons.mp hmem with h | h
          · exact hxa h
          · exact hns h

theorem mem_dedupFirst (l : List String) (x : String) : x ∈ dedupFirst l ↔ x ∈ l := by
  rw [dedupFirst, mem_dedupFirstAux]
  simp

/-- C5 (counterexample): merging an AI suggestion does not preserve
existing metafield mapping rows.  The existing row on `t` is valid
against the current options — it would even pass the merge's own per-row
validation — yet after merging a suggestion whose metafield list is
empty, the spec's metafield mappings are empty: the merge replaces them
wholesale. -/
theorem claimC5_counterexample :
    (mergeSuggestions specWithRow emptyAiSuggestion optsT [] .null).metafieldMappings = [] ∧
    specWithRow.metafieldMappings = [existingRow] ∧
    validSuggestedMetafield (optsT.map (fun x => x.value)) .null existingRow = true := by
  decide

/-- C5 (amended): the merge does keep every existing
`activeOptionalFields` entry and every existing `optionalFieldKeys`
field (its value possibly overridden by a validated suggestion), and it
drops each individually invalid suggested metafield row on its own
(the result is exactly the per-row filter of the suggested rows) — but
the resulting `metafieldMappings` are independent of the existing ones:
existing metafield rows are replaced, not merged. -/
theorem claimC5_amended (spec : MappingSpec) (sugg : AiSuggestion)
    (opts : List FieldOption) (fcs : List (String × String)) (ppd : Json) :
    (∀ f ∈ spec.activeOptionalFields,
      f ∈ (mergeSuggestions spec sugg opts fcs ppd).activeOptionalFields) ∧
    (∀ fk ∈ spec.optionalFieldKeys,
      ∃ v, (fk.1, v) ∈ (mergeSuggestions spec sugg opts fcs ppd).optionalFieldKeys) ∧
    ((mergeSuggestions spec sugg opts fcs ppd).metafieldMappings =
      (mergeSuggestions { spec with metafieldMappings := [] } sugg opts fcs
        ppd).metafieldMappings) ∧
    (∀ ms, sugg.metafieldMappings = some ms →
      (mergeSuggestions spec sugg opts fcs ppd).metafieldMappings =
        ms.filter (fun mf =>
          validSuggestedMetafield (opts.map (fun o => o.value)) ppd mf)) := by
  refine ⟨?_, ?_, rfl, ?_⟩
  · intro f hf
    show f ∈ dedupFirst _
    rw [mem_dedupFirst]
    exact List.mem_append_left _ hf
  · intro fk hfk
    have hmerge : (mergeSuggestions spec sugg opts fcs ppd).optionalFieldKeys =
        spreadRight spec.optionalFieldKeys
          (sugg.optionalFieldKeys.filter (fun fk =>
            fcs.any (fun c => c.1 == fk.1) &&
              (opts.map (fun o => o.value)).contains fk.2)) := rfl
    rw [hmerge]
    generalize (sugg.optionalFieldKeys.filter (fun fk =>
        fcs.any (fun c => c.1 == fk.1) &&
          (opts.map (fun o => o.value)).contains fk.2)) = NE
    unfold spreadRight
    have h2 := List.mem_map_of_mem
      (fun p : String × String =>
        match NE.lookup p.1 with
        | some v => (p.1, v)
        | none => p) hfk
    simp only at h2
    cases hl : NE.lookup fk.1 with
    | some w =>
      rw [hl] at h2
      exact ⟨w, List.mem_append_left _ h2⟩
    | none =>
      rw [hl] at h2
      exact ⟨fk.2, List.mem_append_left _ h2⟩
  · intro ms hms
    have hmeta : (mergeSuggestions spec sugg opts fcs ppd).metafieldMappings =
        match sugg.metafieldMappings with
        | some ms2 => ms2.filter (fun mf =>
            validSuggestedMetafield (opts.map (fun o => o.value)) ppd mf)
        | none => [] := rfl
    rw [hmeta, hms]

theorem claimC5_amended_witness :
    "FIELD_VENDOR" ∈
      (mergeSuggestions staleSpec emptyAiSuggestion optsT [] .null).activeOptionalFields :=
  (claimC5_amended staleSpec emptyAiSuggestion optsT [] .null).1 "FIELD_VENDOR" (by decide)

/-! ## Metafield well-formedness (C10) -/

theorem JsonList.toList_ofList (l : List Json) : (JsonList.ofList l).toList = l := by
  induction l with
  | nil => rfl
  | cons x xs ih => simp [JsonList.ofList, JsonList.toList, ih]

theorem JsonFields.lookup_set_self : ∀ (fs : JsonFields) (k : String) (v : Json),
    (fs.set k v).lookup k = some v
  | .nil, k, v => by simp [JsonFields.set, JsonFields.lookup]
  | .cons a w tl, k, v => by
    by_cases ha : a = k
    · simp [JsonFields.set, JsonFields.lookup, ha]
    · simp [JsonFields.set, JsonFields.lookup, ha, JsonFields.lookup_set_self tl k v]

theorem JsonFields.lookup_set_ne : ∀ (fs : JsonFields) (k k2 : String) (v : Json),
    k2 ≠ k → (fs.set k v).lookup k2 = fs.lookup k2
  | .nil, k, k2, v, h => by
    simp [JsonFields.set, JsonFields.lookup, Ne.symm h]
  | .cons a w tl, k, k2, v, h => by
    by_cases ha : a = k
    · subst ha
      simp [JsonFields.set, JsonFields.lookup, Ne.symm h]
    · by_cases ha2 : a = k2
      · simp [JsonFields.set, JsonFields.lookup, ha, ha2, h]
      · simp [JsonFields.set, JsonFields.lookup, ha, ha2,
          JsonFields.lookup_set_ne tl k k2 v h]

theorem JsonFields.lookup_del_ne : ∀ (fs : JsonFields) (k k2 : String),
    k2 ≠ k → (fs.del k).lookup k2 = fs.lookup k2
  | .nil, k, k2, h => by simp [JsonFields.del, JsonFields.lookup]
  | .cons a w tl, k, k2, h => by
    by_cases ha : a = k
    · subst ha
      simp [JsonFields.del, JsonFields.lookup, Ne.symm h,
        JsonFields.lookup_del_ne tl a k2 h]
    · by_cases ha2 : a = k2
      · simp [JsonFields.del, JsonFields.lookup, ha, ha2, h]
      · simp [JsonFields.del, JsonFields.lookup, ha, ha2,
          JsonFields.lookup_del_ne tl k k2 h]

theorem FIELD_PLACEMENT_MAP_ne_metafields (c : String) (p : String × String)
    (h : FIELD_PLACEMENT_MAP c = some p) : p.1 ≠ "metafields" ∧ p.2 ≠ "metafields" := by
  unfold FIELD_PLACEMENT_MAP at h
  split at h <;> first
    | exact Option.noConfusion h
    | (cases h; exact ⟨by decide, by decide⟩)

theorem setNestedField_lookup_ne (pd : JsonFields) (t k : String) (v : Json) (k2 : String)
    (h : k2 ≠ t) : (setNestedField pd t k v).lookup k2 = pd.lookup k2 := by
  unfold setNestedField
  split
  · exact JsonFields.lookup_set_ne _ _ _ _ h
  · split
    · rfl
    · exact JsonFields.lookup_set_ne _ _ _ _ h

theorem applyTitle_metafields_none (sp : Json) (spec : MappingSpec) (pd : JsonFields)
    (h : pd.lookup "metafields" = none) :
    (applyTitle sp spec pd).lookup "metafields" = none := by
  unfold applyTitle
  split
  · show (pd.set "title" (jsGet sp spec.titleKey)).lookup "metafields" = none
    rw [JsonFields.lookup_set_ne _ _ _ _ (by decide)]
    exact h
  · rw [JsonFields.lookup_set_ne _ _ _ _ (by decide)]
    exact h

theorem applyOptionalField_metafields_none (sp : Json) (spec : MappingSpec)
    (pd : JsonFields) (fc : String) (h : pd.lookup "metafields" = none) :
    (applyOptionalField sp spec pd fc).lookup "metafields" = none := by
  unfold applyOptionalField
  split
  · cases hp : FIELD_PLACEMENT_MAP fc with
    | some p =>
      obtain ⟨h1, h2⟩ := FIELD_PLACEMENT_MAP_ne_metafields fc p hp
      show (if p.1 = "root" then
          pd.set p.2 (jsGet sp (lookupKey spec.optionalFieldKeys fc))
        else
          setNestedField pd p.1 p.2
            (jsGet sp (lookupKey spec.optionalFieldKeys fc))).lookup "metafields" = none
      by_cases hr : p.1 = "root"
      · rw [if_pos hr, JsonFields.lookup_set_ne _ _ _ _ (Ne.symm h2)]
        exact h
      · rw [if_neg hr, setNestedField_lookup_ne _ _ _ _ _ (Ne.symm h1)]
        exact h
    | none =>
      exact h
  · exact h

theorem foldl_optional_metafields_none (sp : Json) (spec : MappingSpec)
    (l : List String) :
    ∀ pd : JsonFields, pd.lookup "metafields" = none →
      (l.foldl (applyOptionalField sp spec) pd).lookup "metafields" = none := by
  induction l with
  | nil => intro pd h; exact h
  | cons fc tl ih =>
    intro pd h
    exact ih _ (applyOptionalField_metafields_none sp spec pd fc h)

theorem applyCleanupInv_metafields_none (pd : JsonFields)
    (h : pd.lookup "metafields" = none) :
    (applyCleanupInv pd).lookup "metafields" = none := by
  unfold applyCleanupInv
  split
  · rw [JsonFields.lookup_del_ne _ _ _ (by decide)]
    exact h
  · exact h

theorem applyCleanup_metafields_none (pd : JsonFields)
    (h : pd.lookup "metafields" = none) :
    (applyCleanup pd).lookup "metafields" = none := by
  unfold applyCleanup
  apply applyCleanupInv_metafields_none
  split
  · rw [JsonFields.lookup_del_ne _ _ _ (by decide)]
    exact h
  · exact h

/-- `jsGet` on an object is a field lookup. -/
theorem jsGet_obj (fs : JsonFields) (k : String) :
    jsGet (.obj fs) k = (match fs.lookup k with | some v => v | none => .undefined) := rfl

theorem outputMetafields_obj_set (fs : JsonFields) (pm : List Json) :
    outputMetafields (.obj (fs.set "metafields" (.arr (JsonList.ofList pm)))) = pm := by
  unfold outputMetafields
  rw [jsGet_obj, JsonFields.lookup_set_self]
  exact JsonList.toList_ofList pm

theorem outputMetafields_obj_none (fs : JsonFields)
    (h : fs.lookup "metafields" = none) : outputMetafields (.obj fs) = [] := by
  unfold outputMetafields
  rw [jsGet_obj, h]

theorem emitDynamic_wellformed (mm : MetafieldMapping) :
    ∀ (xs : JsonList) (m : Json), m ∈ emitDynamicMetafields mm xs →
      ∃ k v, m = metafieldObj mm.metafieldNamespace k mm.metafieldType v ∧
        k.truthy = true
  | .nil, m, h => absurd h (List.not_mem_nil m)
  | .cons item tl, m, h => by
    rw [emitDynamicMetafields] at h
    rcases List.mem_append.mp h with h2 | h2
    · split at h2
      · next hcond =>
        rcases List.mem_singleton.mp h2 with rfl
        exact ⟨jsGet item mm.arrayKeySource, jsGet item mm.arrayValueSource, rfl,
          hcond.2.2.1⟩
      · exact absurd h2 (List.not_mem_nil m)
    · exact emitDynamic_wellformed mm tl m h2

theorem emit_wellformed (sp : Json) (mm : MetafieldMapping) (m : Json)
    (h : m ∈ emitMetafieldsForMapping sp mm) :
    ∃ ns k ty v, m = metafieldObj ns k ty v ∧ ns ≠ "" ∧ ty ≠ "" ∧ k.truthy = true := by
  unfold emitMetafieldsForMapping at h
  split at h
  · exact absurd h (List.not_mem_nil m)
  · split at h
    · split at h
      · next hcond =>
        rcases List.mem_singleton.mp h with rfl
        refine ⟨mm.metafieldNamespace, .str mm.metafieldKey, mm.metafieldType,
          jsGet sp mm.sourceKey, rfl, hcond.1, hcond.2.2, ?_⟩
        simp [Json.truthy, hcond.2.1]
      · exact absurd h (List.not_mem_nil m)
    · split at h
      · split at h
        · split at h
          · next hcond =>
            obtain ⟨k, v, hm, hk⟩ := emitDynamic_wellformed mm _ m h
            exact ⟨mm.metafieldNamespace, k, mm.metafieldType, v, hm, hcond.1,
              hcond.2.2.2, hk⟩
          · exact absurd h (List.not_mem_nil m)
        · exact absurd h (List.not_mem_nil m)
      · exact absurd h (List.not_mem_nil m)

theorem outputMetafields_generatePreview (sp : Json) (spec : MappingSpec) (m : Json)
    (hm : m ∈ outputMetafields (generatePreviewForProduct sp spec)) :
    m ∈ (spec.metafieldMappings.map
      (fun mm => emitMetafieldsForMapping sp mm)).flatten := by
  unfold generatePreviewForProduct at hm
  split at hm
  · exact absurd hm (List.not_mem_nil m)
  · have h3 : (applyCleanup
        (spec.activeOptionalFields.foldl (applyOptionalField sp spec)
          (applyTitle sp spec previewBase))).lookup "metafields" = none := by
      apply applyCleanup_metafields_none
      apply foldl_optional_metafields_none
      apply applyTitle_metafields_none
      rfl
    unfold applyMetafields attachMetafields at hm
    split at hm
    · rw [outputMetafields_obj_set] at hm
      exact hm
    · rw [outputMetafields_obj_none _ h3] at hm
      exact absurd hm (List.not_mem_nil m)

/-- C10: every metafield object in a wizard-transform output is
well-formed: it has exactly the shape `{namespace, key, type, value}`
with a non-empty namespace, a non-empty type, and a truthy key (for
`single` rows the key is the row's non-empty `metafieldKey`; for
`dynamic_from_array` rows it is the element's `arrayKeySource` value,
emitted only when truthy).  Rows missing any required piece contribute
no metafield. -/
theorem claimC10_metafields_wellformed (sp : Json) (spec : MappingSpec) :
    ∀ m ∈ outputMetafields (generatePreviewForProduct sp spec),
      ∃ ns k ty v, m = metafieldObj ns k ty v ∧ ns ≠ "" ∧ ty ≠ "" ∧
        k.truthy = true := by
  intro m hm
  have h2 := outputMetafields_generatePreview sp spec m hm
  rw [List.mem_flatten] at h2
  obtain ⟨l, hl, hml⟩ := h2
  rw [List.mem_map] at hl
  obtain ⟨mm, hmm2, rfl⟩ := hl
  exact emit_wellformed sp mm m hml

theorem claimC10_metafields_wellformed_witness :
    ∃ ns k ty v,
      metafieldObj "custom" (.str "k") "single_line_text_field" (.str "v") =
        metafieldObj ns k ty v ∧ ns ≠ "" ∧ ty ≠ "" ∧ k.truthy = true :=
  claimC10_metafields_wellformed (.objL [("p", .str "v")])
    { emptySpec with metafieldMappings := [pRow] }
    (metafieldObj "custom" (.str "k") "single_line_text_field" (.str "v")) (by decide)
